import Mathlib

/-!
Shallow embedding of the go-idp-caller JWKS aggregation service.

Sources embedded:
* `internal/jwks/types.go` — `JWK`, `JWKS`, `IDPData` (the extended `IDPData`
  fields are the ones read and written by `Manager` in `internal/jwks/manager.go`
  and by the HTTP handlers).
* `internal/jwks/updater.go` — `determineCacheDuration`, `parseCacheControl`,
  `splitCacheControl`, `trimSpace`, the decoding tail of `fetch`, and
  `fetchAndUpdate`.
* `internal/jwks/manager.go` — `UpdateWithIDPCache`, `Get`, `GetAll`, `GetJWKS`.
* `internal/server/server.go` — `handleGetMergedJWKS`, `handleGetIDPJWKS`.

Machine integers are modelled as `Int`/`Nat`; no value in any claim approaches
the 64-bit range, so overflow is not modelled.  Wall-clock time is modelled as
an `Int` number of seconds (`time.Now()` becomes an explicit `now` parameter).
Go strings are modelled as `String`, manipulated through their character lists
(all inputs of interest are ASCII, where Go's byte indexing and Lean's
character indexing agree).
-/

namespace IdpCaller

/-- A JSON Web Key, mirroring struct `JWK` in `internal/jwks/types.go`.
All fields default to Go's zero value. -/
structure JWK where
  kid : String := ""
  kty : String := ""
  alg : String := ""
  use : String := ""
  n : String := ""
  e : String := ""
  x5c : List String := []
  x5t : String := ""
  crv : String := ""
  x : String := ""
  y : String := ""
deriving Repr, DecidableEq

/-- A JSON Web Key Set, mirroring struct `JWKS` in `internal/jwks/types.go`. -/
structure JWKS where
  keys : List JWK
deriving Repr, DecidableEq

/-- Per-IDP registry slot, mirroring struct `IDPData`: the fields are exactly
those referenced by `Manager.UpdateWithIDPCache`, `Manager.Get`,
`Manager.GetAll` and the HTTP handlers.  A Go `*JWKS` is `Option JWKS`
(`none` = nil); zero values are the defaults. -/
structure IDPData where
  name : String := ""
  jwks : Option JWKS := none
  lastUpdated : Int := 0
  lastError : String := ""
  updateCount : Nat := 0
  keyCount : Nat := 0
  maxKeys : Int := 0
  cacheDuration : Int := 0
  idpSuggestedCache : Int := 0
  refreshInterval : Int := 0
  cacheUntil : Int := 0
deriving Repr, DecidableEq

/-- IDP configuration entry, mirroring struct `IDPConfig` in
`internal/config/config.go`. -/
structure IDPConfig where
  name : String
  url : String
  refreshInterval : Int
  maxKeys : Int
  cacheDuration : Int
deriving Repr, DecidableEq

/-- `IDPConfig.GetMaxKeys`: default of 10 when not set. -/
def IDPConfig.getMaxKeys (c : IDPConfig) : Int :=
  if c.maxKeys ≤ 0 then 10 else c.maxKeys

/-- `IDPConfig.GetCacheDuration`: default of 900 seconds when not set. -/
def IDPConfig.getCacheDuration (c : IDPConfig) : Int :=
  if c.cacheDuration ≤ 0 then 900 else c.cacheDuration

/-- The two characters trimmed by `trimSpace` in `updater.go`. -/
def isSpaceTab (c : Char) : Bool := c = ' ' || c = '\t'

/-- `trimSpace` from `updater.go`: strip leading and trailing spaces/tabs. -/
def trimSpace (l : List Char) : List Char :=
  ((l.dropWhile isSpaceTab).reverse.dropWhile isSpaceTab).reverse

/-- Loop body of `splitCacheControl` from `updater.go`: walk the characters,
cut at each comma, trim every piece, and drop pieces that trim to empty.
`cur` is the accumulator string `current` of the Go loop. -/
def splitCacheControlAux : List Char → List Char → List (List Char)
  | [], cur => if trimSpace cur = [] then [] else [trimSpace cur]
  | c :: rest, cur =>
    if c = ',' then
      if trimSpace cur = [] then splitCacheControlAux rest []
      else trimSpace cur :: splitCacheControlAux rest []
    else splitCacheControlAux rest (cur ++ [c])

/-- `splitCacheControl` from `updater.go`. -/
def splitCacheControl (s : String) : List (List Char) :=
  splitCacheControlAux s.toList []

/-- Value of a list of decimal digits, most significant first. -/
def digitsToNat (l : List Char) : Nat :=
  l.foldl (fun acc c => acc * 10 + (c.toNat - '0'.toNat)) 0

/-- Digit-run scan used by `fmt.Sscanf` with verb `%d`: read the longest
leading run of decimal digits; fail when there is none.  Characters after the
run are ignored (Sscanf does not require the whole string to be consumed). -/
def scanDigitRun (l : List Char) : Option Int :=
  let ds := l.takeWhile Char.isDigit
  if ds = [] then none else some (digitsToNat ds : Int)

/-- Model of `fmt.Sscanf(s, "%d", &maxAge)` from `parseCacheControl`:
skip leading whitespace, accept an optional sign, then require at least one
decimal digit; trailing characters are ignored.  (Go skips any Unicode
whitespace; space and tab are the ones that can survive the outer trim.) -/
def sscanfInt (l : List Char) : Option Int :=
  let l1 := l.dropWhile isSpaceTab
  if l1.take 1 = ['-'] then (scanDigitRun (l1.drop 1)).map (fun v => -v)
  else if l1.take 1 = ['+'] then scanDigitRun (l1.drop 1)
  else scanDigitRun l1

/-- The literal prefix `max-age=` compared against `directive[:8]`. -/
def maxAgeLit : List Char := "max-age=".toList

/-- The directive loop of `parseCacheControl` in `updater.go`: return on the
first directive longer than 8 characters that starts with `max-age=` and whose
remainder scans with `%d`; otherwise keep looking, and yield 0 at the end. -/
def parseCacheControlAux : List (List Char) → Int
  | [] => 0
  | d :: ds =>
    if d.length > 8 ∧ d.take 8 = maxAgeLit then
      match sscanfInt (d.drop 8) with
      | some v => v
      | none => parseCacheControlAux ds
    else parseCacheControlAux ds

/-- `parseCacheControl` from `internal/jwks/updater.go`: extract the `max-age`
value from a `Cache-Control` header, 0 if absent or not scannable. -/
def parseCacheControl (s : String) : Int :=
  if s = "" then 0 else parseCacheControlAux (splitCacheControl s)

/-- `determineCacheDuration` from `internal/jwks/updater.go` (the compiled
implementation): no upstream signal (`idpMaxAge ≤ 0`) yields the configured
duration; otherwise the larger of the upstream suggestion and the configured
duration is chosen ("Always use the MAXIMUM of IDP's suggestion and config"). -/
def determineCacheDuration (cfg : IDPConfig) (idpMaxAge : Int) : Int :=
  let configDuration := cfg.getCacheDuration
  if idpMaxAge ≤ 0 then configDuration
  else if idpMaxAge < configDuration then configDuration
  else idpMaxAge

/-- The variant of `determineCacheDuration` reproduced in the repository's own
documentation (`CACHING_STRATEGY.md`, `KEY_ROTATION_SOLUTION.md`) and in the
doc copy of `updater.go`: the minimum of the upstream suggestion and the
configured duration when the suggestion is positive, the configured duration
otherwise. -/
def determineCacheDurationDocumented (cfg : IDPConfig) (idpMaxAge : Int) : Int :=
  let configDuration := cfg.getCacheDuration
  if idpMaxAge ≤ 0 then configDuration
  else if idpMaxAge < configDuration then idpMaxAge
  else configDuration

/-- The failure cases of `Updater.fetch` in `internal/jwks/updater.go`, one
constructor per `fmt.Errorf` site, each carrying the dynamic part of the
message. -/
inductive FetchError where
  | requestFailed (msg : String)
  | doFailed (msg : String)
  | badStatus (code : Int) (body : String)
  | readFailed (msg : String)
  | parseFailed (msg : String)
deriving Repr, DecidableEq

/-- The error string produced by each `fmt.Errorf` call in `fetch`
(`err.Error()` as stored into `last_error`). -/
def FetchError.message : FetchError → String
  | .requestFailed msg => "failed to create request: " ++ msg
  | .doFailed msg => "failed to fetch JWKS: " ++ msg
  | .badStatus code body => "unexpected status code " ++ toString code ++ ": " ++ body
  | .readFailed msg => "failed to read response body: " ++ msg
  | .parseFailed msg => "failed to parse JWKS: " ++ msg

/-- JSON values, for modelling `encoding/json.Unmarshal` of a response body.
Numbers are restricted to integers; no claim depends on fractional values. -/
inductive Json where
  | null
  | bool (b : Bool)
  | num (n : Int)
  | str (s : String)
  | arr (elems : List Json)
  | obj (fields : List (String × Json))

/-- First binding of a field name in a JSON object.  (Go's decoder matches
field names case-insensitively and lets a later duplicate win; the modelled
inputs use lower-case names exactly once, where the behaviors agree.) -/
def Json.getField (fields : List (String × Json)) (key : String) : Option Json :=
  match fields with
  | [] => none
  | (k, v) :: rest => if k = key then some v else Json.getField rest key

/-- `json.Unmarshal` of a JSON value into a Go `string` field: strings are
taken verbatim, `null` leaves the zero value, anything else is a type error. -/
def unmarshalString (v : Json) : Except String String :=
  match v with
  | .str s => .ok s
  | .null => .ok ""
  | _ => .error "cannot unmarshal value into Go string"

/-- `json.Unmarshal` into a Go `[]string` field (`x5c`). -/
def unmarshalStringList (v : Json) : Except String (List String) :=
  match v with
  | .null => .ok []
  | .arr elems => elems.mapM unmarshalString
  | _ => .error "cannot unmarshal value into Go []string"

/-- Decode one optional string field of a `JWK` object: absent fields keep the
zero value, present fields must be strings (or `null`). -/
def jwkStringField (fields : List (String × Json)) (key : String) : Except String String :=
  match Json.getField fields key with
  | none => .ok ""
  | some v => unmarshalString v

/-- `json.Unmarshal` of a JSON value into struct `JWK`: `null` is a no-op on
the zero value, an object decodes field by field, anything else is a type
error. -/
def unmarshalJWK (v : Json) : Except String JWK :=
  match v with
  | .null => .ok {}
  | .obj fields => do
    let kid ← jwkStringField fields "kid"
    let kty ← jwkStringField fields "kty"
    let alg ← jwkStringField fields "alg"
    let use ← jwkStringField fields "use"
    let n ← jwkStringField fields "n"
    let e ← jwkStringField fields "e"
    let x5c ← match Json.getField fields "x5c" with
      | none => pure []
      | some w => unmarshalStringList w
    let x5t ← jwkStringField fields "x5t"
    let crv ← jwkStringField fields "crv"
    let x ← jwkStringField fields "x"
    let y ← jwkStringField fields "y"
    .ok { kid, kty, alg, use, n, e, x5c, x5t, crv, x, y }
  | _ => .error "cannot unmarshal value into Go struct JWKS.keys element"

/-- `json.Unmarshal(body, &jwks)` for struct `JWKS { Keys []JWK }`: a `keys`
field that is absent or `null` leaves `Keys` at its zero value (no keys) and
is NOT an error; a present `keys` must be an array of JWK objects; a top-level
value that is not an object (or `null`) is a type error. -/
def unmarshalJWKS (v : Json) : Except String JWKS :=
  match v with
  | .null => .ok ⟨[]⟩
  | .obj fields =>
    match Json.getField fields "keys" with
    | none => .ok ⟨[]⟩
    | some .null => .ok ⟨[]⟩
    | some (.arr elems) => do
      let ks ← elems.mapM unmarshalJWK
      .ok ⟨ks⟩
    | some _ => .error "cannot unmarshal value into Go slice []JWK"
  | _ => .error "cannot unmarshal value into Go struct JWKS"

/-- The decoding tail of `Updater.fetch` (`updater.go`), after the transport
succeeded: reject a non-200 status, read the `Cache-Control` header into
`idpMaxAge` via `parseCacheControl`, then `json.Unmarshal` the body.  The body
is a parsed `Json` value or `none` for a body that is not valid JSON (in which
case `Unmarshal` reports a syntax error). -/
def fetchDecode (status : Int) (cacheControl : String) (body : Option Json) :
    Except FetchError (JWKS × Int) :=
  if status ≠ 200 then .error (.badStatus status "")
  else
    let idpMaxAge := parseCacheControl cacheControl
    match body with
    | none => .error (.parseFailed "invalid character in body")
    | some v =>
      match unmarshalJWKS v with
      | .error e => .error (.parseFailed e)
      | .ok jwks => .ok (jwks, idpMaxAge)

/-- One structured log record, mirroring the three `logger` calls inside
`Manager.UpdateWithIDPCache`. -/
inductive LogEvent where
  | errorUpdate (idp : String) (err : String)
  | warnTruncate (idp : String) (originalCount : Nat) (maxKeys : Int)
  | infoSuccess (idp : String) (keyCount : Nat) (cacheDuration : Int)
deriving Repr, DecidableEq

/-- The registry contents: Go's `map[string]*IDPData`, modelled as an
association list with at most one binding per name.  Iteration order of a Go
map is unspecified; the list order stands in for one such order. -/
def Manager := List (String × IDPData)

/-- Map lookup `m.data[name]`. -/
def findData (m : Manager) (name : String) : Option IDPData :=
  match m with
  | [] => none
  | (k, v) :: rest => if k = name then some v else findData rest name

/-- Map store `m.data[name] = d`: replace the existing binding or add one. -/
def setData (m : Manager) (name : String) (d : IDPData) : Manager :=
  match m with
  | [] => [(name, d)]
  | (k, v) :: rest => if k = name then (name, d) :: rest else (k, v) :: setData rest name d

/-- `Manager.UpdateWithIDPCache` from `internal/jwks/manager.go`.  The Go pair
`(jwks *JWKS, err error)` coming out of `fetch` is `Except FetchError JWKS`
(`fetch` returns a non-nil JWKS exactly when `err == nil`).  `now` stands for
the two `time.Now()` calls.  Returns the new registry contents and the log
records emitted, in order.

Faithful detail: `LastUpdated`, `UpdateCount`, `MaxKeys`, `CacheDuration`,
`IDPSuggestedCache` and `RefreshInterval` are assigned BEFORE the error check,
on every attempt; only the remaining fields are conditional on success. -/
def updateWithIDPCache (m : Manager) (name : String) (res : Except FetchError JWKS)
    (maxKeys : Int) (cacheDuration : Int) (idpSuggestedCache : Int)
    (refreshInterval : Int) (now : Int) : Manager × List LogEvent :=
  let data := (findData m name).getD { name := name }
  let data := { data with
    lastUpdated := now
    updateCount := data.updateCount + 1
    maxKeys := maxKeys
    cacheDuration := cacheDuration
    idpSuggestedCache := idpSuggestedCache
    refreshInterval := refreshInterval }
  match res with
  | .error err =>
    let data := { data with lastError := err.message }
    (setData m name data, [.errorUpdate name err.message])
  | .ok jwks =>
    let originalCount := jwks.keys.length
    let truncating := (originalCount : Int) > maxKeys
    let keys := if truncating then jwks.keys.take maxKeys.toNat else jwks.keys
    let data := { data with
      jwks := some ⟨keys⟩
      keyCount := keys.length
      cacheUntil := now + cacheDuration
      lastError := "" }
    (setData m name data,
      (if truncating then [LogEvent.warnTruncate name originalCount maxKeys] else []) ++
        [.infoSuccess name keys.length cacheDuration])

/-- `Manager.Get` from `internal/jwks/manager.go`: look the name up and return
a copy built as `&IDPData{Name: …, JWKS: …, LastUpdated: …, LastError: …,
UpdateCount: …}` — the remaining fields of the copy are left at their zero
values. -/
def managerGet (m : Manager) (name : String) : Option IDPData :=
  match findData m name with
  | none => none
  | some data => some
    { name := data.name
      jwks := data.jwks
      lastUpdated := data.lastUpdated
      lastError := data.lastError
      updateCount := data.updateCount }

/-- `Manager.GetAll` from `internal/jwks/manager.go`: copies of every entry,
carrying nine fields (`IDPSuggestedCache` and `RefreshInterval` are left at
their zero values in the copy). -/
def managerGetAll (m : Manager) : List IDPData :=
  m.map (fun kv =>
    { name := kv.2.name
      jwks := kv.2.jwks
      lastUpdated := kv.2.lastUpdated
      lastError := kv.2.lastError
      updateCount := kv.2.updateCount
      keyCount := kv.2.keyCount
      maxKeys := kv.2.maxKeys
      cacheDuration := kv.2.cacheDuration
      cacheUntil := kv.2.cacheUntil })

/-- `Manager.GetJWKS`: the JWKS of a known entry whose JWKS is non-nil. -/
def managerGetJWKS (m : Manager) (name : String) : Option JWKS :=
  match managerGet m name with
  | none => none
  | some data => data.jwks

/-- `Updater.fetchAndUpdate` from `internal/jwks/updater.go`, given the
outcome of the HTTP exchange: thread the fetch result, the key ceiling, the
arbitrated cache duration and the upstream suggestion into
`Manager.UpdateWithIDPCache`.  On a failed fetch the upstream suggestion is
the zero value 0, exactly as in Go's multi-return on the error path. -/
def fetchAndUpdate (cfg : IDPConfig) (m : Manager)
    (status : Int) (cacheControl : String) (body : Option Json) (now : Int) :
    Manager × List LogEvent :=
  let res := fetchDecode status cacheControl body
  let idpCacheDuration := match res with
    | .ok (_, maxAge) => maxAge
    | .error _ => 0
  let maxKeys := cfg.getMaxKeys
  let cacheDuration := determineCacheDuration cfg idpCacheDuration
  updateWithIDPCache m cfg.name (res.map Prod.fst) maxKeys cacheDuration
    idpCacheDuration cfg.refreshInterval now

/-- HTTP request method, as far as the handlers distinguish it. -/
inductive Method where
  | get
  | other
deriving Repr, DecidableEq

/-- Response of `handleGetIDPJWKS` (`internal/server/server.go`): the error
branches, or 200 with the `Cache-Control` max-age, `X-Key-Count`, `X-Max-Keys`
and `X-Last-Updated` header values and the JSON body's keys. -/
inductive IDPJwksResponse where
  | methodNotAllowed
  | badRequest
  | notFound
  | ok (maxAge : Int) (xKeyCount : Nat) (xMaxKeys : Int) (xLastUpdated : Int)
      (keys : List JWK)
deriving Repr, DecidableEq

/-- HTTP status code of an `IDPJwksResponse`. -/
def IDPJwksResponse.status : IDPJwksResponse → Nat
  | .methodNotAllowed => 405
  | .badRequest => 400
  | .notFound => 404
  | .ok _ _ _ _ _ => 200

/-- `handleGetIDPJWKS` from `internal/server/server.go`: 405 on a non-GET,
400 on an empty name path segment, 404 when `Manager.Get` finds nothing, 404
when the found entry's JWKS is nil, otherwise 200 with headers drawn from the
copy that `Manager.Get` returned. -/
def handleGetIDPJWKS (m : Manager) (method : Method) (name : String) : IDPJwksResponse :=
  if method ≠ .get then .methodNotAllowed
  else if name = "" then .badRequest
  else
    match managerGet m name with
    | none => .notFound
    | some data =>
      match data.jwks with
      | none => .notFound
      | some keySet =>
        .ok data.cacheDuration data.keyCount data.maxKeys data.lastUpdated keySet.keys

/-- Response of `handleGetMergedJWKS`: 405, or 200 with the merged key list,
the `Cache-Control` max-age, `X-Total-Keys` and `X-IDP-Count` header values. -/
inductive MergedResponse where
  | methodNotAllowed
  | ok (keys : List JWK) (maxAge : Int) (xTotalKeys : Nat) (xIdpCount : Nat)
deriving Repr, DecidableEq

/-- The accumulation loop of `handleGetMergedJWKS`: over the iteration order
of `GetAll`, append the keys of every IDP whose JWKS is non-nil and non-empty,
add its `KeyCount` to the total, and lower `minCacheDuration` to its
`CacheDuration` whenever that is positive and strictly smaller. -/
def mergeLoop : List IDPData → List JWK → Nat → Int → List JWK × Nat × Int
  | [], keysAcc, total, minCD => (keysAcc, total, minCD)
  | d :: rest, keysAcc, total, minCD =>
    match d.jwks with
    | some j =>
      if 0 < j.keys.length then
        mergeLoop rest (keysAcc ++ j.keys) (total + d.keyCount)
          (if 0 < d.cacheDuration ∧ d.cacheDuration < minCD then d.cacheDuration else minCD)
      else mergeLoop rest keysAcc total minCD
    | none => mergeLoop rest keysAcc total minCD

/-- `handleGetMergedJWKS` from `internal/server/server.go`: merge over
`GetAll`, starting from `minCacheDuration := 900`; `X-IDP-Count` is the number
of entries in the registry, including those without keys. -/
def handleGetMergedJWKS (m : Manager) (method : Method) : MergedResponse :=
  if method ≠ .get then .methodNotAllowed
  else
    let all := managerGetAll m
    let acc := mergeLoop all [] 0 900
    .ok acc.1 acc.2.2 acc.2.1 all.length

/-! ### Helper lemmas shared by the claim theorems -/

/-- Storing a binding makes it the one found for its own name. -/
theorem findData_setData (m : Manager) (name : String) (d : IDPData) :
    findData (setData m name d) name = some d := by
  induction m with
  | nil => simp [setData, findData]
  | cons kv rest ih =>
    by_cases h : kv.1 = name
    · simp [setData, findData, h]
    · simp [setData, findData, h, ih]

/-- Storing a binding does not disturb lookups of other names. -/
theorem findData_setData_ne (m : Manager) (name other : String) (d : IDPData)
    (h : name ≠ other) : findData (setData m name d) other = findData m other := by
  induction m with
  | nil => simp [setData, findData, h]
  | cons kv rest ih =>
    by_cases hk : kv.1 = name
    · simp [setData, findData, hk, h]
    · by_cases ho : kv.1 = other <;> simp [setData, findData, hk, ho, ih, Ne.symm h]

/-- A string with a non-empty left part is non-empty. -/
theorem append_ne_empty_left (a b : String) (ha : a ≠ "") : a ++ b ≠ "" := by
  intro h
  apply ha
  have hdata := congrArg String.data h
  rw [String.data_append] at hdata
  exact String.ext (List.append_eq_nil.mp hdata).1

/-- Every `fetch` error message is non-empty: each starts with a non-empty
literal prefix. -/
theorem FetchError.message_ne_empty (e : FetchError) : e.message ≠ "" := by
  cases e <;> simp only [FetchError.message, String.append_assoc] <;>
    exact append_ne_empty_left _ _ (by decide)

/-- The result of `UpdateWithIDPCache` is always a store of a single binding
whose `updateCount` is the previous count plus one (the previous count being 0
for a fresh slot). -/
theorem updateWithIDPCache_shape (m : Manager) (name : String)
    (res : Except FetchError JWKS) (mk cd isc ri now : Int) :
    ∃ d, (updateWithIDPCache m name res mk cd isc ri now).1 = setData m name d ∧
      d.updateCount = ((findData m name).getD { name := name }).updateCount + 1 := by
  cases res with
  | error e => exact ⟨_, rfl, rfl⟩
  | ok jwks => exact ⟨_, rfl, rfl⟩

/-! ### Concrete fixtures used by witnesses and counterexamples -/

/-- A sample IDP configuration: `cache_duration: 900`, `max_keys: 10`. -/
def cfg0 : IDPConfig := ⟨"idp", "https://example.com/jwks", 3600, 10, 900⟩

/-- Sample keys. -/
def k1 : JWK := { kid := "k1", kty := "RSA" }

/-- Sample keys. -/
def k2 : JWK := { kid := "k2", kty := "RSA" }

/-- Sample keys. -/
def k3 : JWK := { kid := "k3", kty := "RSA" }

/-- Registry after one successful attempt for `idp` at time 100 publishing two
keys with `cache_duration = 900`, `max_keys = 10`. -/
def mFirst : Manager :=
  (updateWithIDPCache [] "idp" (.ok ⟨[k1, k2]⟩) 10 900 0 3600 100).1

/-- The slot stored in `mFirst`. -/
def firstEntry : IDPData :=
  { name := "idp", jwks := some ⟨[k1, k2]⟩, lastUpdated := 100, lastError := "",
    updateCount := 1, keyCount := 2, maxKeys := 10, cacheDuration := 900,
    idpSuggestedCache := 0, refreshInterval := 3600, cacheUntil := 1000 }

/-- Registry after the success of `mFirst` followed by a failed attempt
(timeout) at time 200. -/
def mSecond : Manager :=
  (updateWithIDPCache mFirst "idp" (.error (.doFailed "timeout")) 10 900 0 3600 200).1

/-! ### C1 -/

/-- C1: the Cache-Duration Arbiter is claimed to return
`min(idp_suggested, configured)` whenever `idp_suggested > 0`.  The compiled
`determineCacheDuration` instead returns the maximum: with
`cache_duration: 900` configured and the upstream suggesting `max-age=600`,
it returns 900, while the variant reproduced throughout the repository's own
documentation returns 600.  This records the code bug at that failing
input. -/
theorem determineCacheDuration_contradicts_documented_min :
    determineCacheDuration ⟨"auth0", "https://idp/jwks", 3600, 10, 900⟩ 600 = 900 ∧
    determineCacheDurationDocumented ⟨"auth0", "https://idp/jwks", 3600, 10, 900⟩ 600 = 600 ∧
    (900 : Int) ≠ 600 := by
  refine ⟨by decide, by decide, by decide⟩

/-! ### C4 -/

/-- C4: claimed — a 200 response of `GET /jwks/{name}` carries
`max-age = stored cache_duration`, `X-Key-Count = stored key_count`, and
`X-Max-Keys = stored max_keys`.  In fact `Manager.Get` copies only five of the
slot's fields, so the handler reads Go zero values: for the loaded slot of
`mFirst` (stored `cache_duration = 900`, `key_count = 2`, `max_keys = 10`) the
response carries `max-age=0`, `X-Key-Count: 0`, `X-Max-Keys: 0`; only
`X-Last-Updated` and the body survive.  This records the code bug at that
failing input. -/
theorem handleGetIDPJWKS_headers_zeroed :
    handleGetIDPJWKS mFirst .get "idp" = .ok 0 0 0 100 [k1, k2] ∧
    (findData mFirst "idp").map IDPData.cacheDuration = some 900 ∧
    (findData mFirst "idp").map IDPData.keyCount = some 2 ∧
    (findData mFirst "idp").map IDPData.maxKeys = some 10 := by
  refine ⟨by decide, by decide, by decide, by decide⟩

/-! ### C2 -/

/-- C2 counterexample: the claim says a failed update leaves `last_updated`
unchanged.  In `UpdateWithIDPCache` the assignment `data.LastUpdated =
time.Now()` happens before the error check: after a success at time 100, a
failed attempt at time 200 moves `last_updated` from 100 to 200. -/
theorem failedUpdate_changes_lastUpdated :
    (findData mFirst "idp").map IDPData.lastUpdated = some 100 ∧
    (findData mSecond "idp").map IDPData.lastUpdated = some 200 ∧
    (findData mSecond "idp").map IDPData.lastError =
      some "failed to fetch JWKS: timeout" := by
  refine ⟨by decide, by decide, by decide⟩

/-- C2 (amended): for every IDP state and every update attempt, a successful
update sets `last_error` to the empty string, and a failed update leaves
`jwks`, `key_count` and `cache_until` unchanged, sets `last_error` to the
non-empty error message and increments `update_count` by one — but overwrites
`last_updated` with the attempt time (the full post-failure slot is given
explicitly). -/
theorem updateWithIDPCache_success_and_failure (m : Manager) (name : String)
    (mk cd isc ri now : Int) (old : IDPData) (h : findData m name = some old) :
    (∀ e : FetchError,
      findData (updateWithIDPCache m name (.error e) mk cd isc ri now).1 name =
        some { old with
                 lastUpdated := now,
                 updateCount := old.updateCount + 1,
                 maxKeys := mk,
                 cacheDuration := cd,
                 idpSuggestedCache := isc,
                 refreshInterval := ri,
                 lastError := e.message } ∧
      e.message ≠ "") ∧
    (∀ jwks : JWKS, ∃ d,
      findData (updateWithIDPCache m name (.ok jwks) mk cd isc ri now).1 name = some d ∧
      d.lastError = "") := by
  constructor
  · intro e
    refine ⟨?_, FetchError.message_ne_empty e⟩
    unfold updateWithIDPCache
    rw [h]
    exact findData_setData _ _ _
  · intro jwks
    unfold updateWithIDPCache
    exact ⟨_, findData_setData _ _ _, rfl⟩

/-- Witness for C2 (amended) at the concrete two-attempt run `mSecond`. -/
theorem updateWithIDPCache_success_and_failure_witness :
    findData mSecond "idp" =
      some { firstEntry with
               lastUpdated := 200,
               updateCount := 2,
               lastError := "failed to fetch JWKS: timeout" } ∧
    (FetchError.doFailed "timeout").message ≠ "" := by
  have h := (updateWithIDPCache_success_and_failure mFirst "idp" 10 900 0 3600 200
    firstEntry (by decide)).1 (.doFailed "timeout")
  exact ⟨h.1.trans (by decide), h.2⟩

/-! ### C9 -/

/-- One refresh attempt as observed by the registry: the arguments of a single
`UpdateWithIDPCache` call. -/
structure Attempt where
  name : String
  res : Except FetchError JWKS
  maxKeys : Int
  cacheDuration : Int
  idpSuggestedCache : Int
  refreshInterval : Int
  now : Int

/-- Apply one attempt to the registry. -/
def applyAttempt (m : Manager) (a : Attempt) : Manager :=
  (updateWithIDPCache m a.name a.res a.maxKeys a.cacheDuration
    a.idpSuggestedCache a.refreshInterval a.now).1

/-- Apply a sequence of attempts in order. -/
def runAttempts (m : Manager) : List Attempt → Manager
  | [] => m
  | a :: rest => runAttempts (applyAttempt m a) rest

/-- The observable `update_count` for a name (0 before the slot exists). -/
def updateCountOf (m : Manager) (name : String) : Nat :=
  match findData m name with
  | none => 0
  | some d => d.updateCount

/-- An attempt for a name increments that name's count by exactly one. -/
theorem updateCount_applyAttempt (m : Manager) (a : Attempt) :
    updateCountOf (applyAttempt m a) a.name = updateCountOf m a.name + 1 := by
  obtain ⟨d, heq, hc⟩ := updateWithIDPCache_shape m a.name a.res a.maxKeys
    a.cacheDuration a.idpSuggestedCache a.refreshInterval a.now
  unfold applyAttempt updateCountOf
  rw [heq, findData_setData]
  cases hfd : findData m a.name <;> simp [hfd] at hc ⊢ <;> omega

/-- An attempt for one name leaves every other name's count unchanged. -/
theorem updateCount_applyAttempt_ne (m : Manager) (a : Attempt) (name : String)
    (h : a.name ≠ name) :
    updateCountOf (applyAttempt m a) name = updateCountOf m name := by
  obtain ⟨d, heq, _⟩ := updateWithIDPCache_shape m a.name a.res a.maxKeys
    a.cacheDuration a.idpSuggestedCache a.refreshInterval a.now
  unfold applyAttempt updateCountOf
  rw [heq, findData_setData_ne _ _ _ _ h]

/-- C9: for every fixed IDP name, every attempt addressed to it — successful
or failed — increments `update_count` by exactly 1, a single attempt never
decreases it, and over any sequence of attempts it is monotonically
non-decreasing. -/
theorem updateCount_monotone (name : String) :
    (∀ (m : Manager) (a : Attempt), a.name = name →
      updateCountOf (applyAttempt m a) name = updateCountOf m name + 1) ∧
    (∀ (m : Manager) (a : Attempt),
      updateCountOf m name ≤ updateCountOf (applyAttempt m a) name) ∧
    (∀ (m : Manager) (tr : List Attempt),
      updateCountOf m name ≤ updateCountOf (runAttempts m tr) name) := by
  have hstep : ∀ (m : Manager) (a : Attempt),
      updateCountOf m name ≤ updateCountOf (applyAttempt m a) name := by
    intro m a
    by_cases h : a.name = name
    · subst h
      rw [updateCount_applyAttempt]
      omega
    · rw [updateCount_applyAttempt_ne m a name h]
  refine ⟨?_, hstep, ?_⟩
  · intro m a h
    subst h
    exact updateCount_applyAttempt m a
  · intro m tr
    induction tr generalizing m with
    | nil => simp [runAttempts]
    | cons a rest ih => exact le_trans (hstep m a) (ih (applyAttempt m a))

/-- Witness for C9 at the concrete two-attempt run. -/
theorem updateCount_monotone_witness :
    updateCountOf mSecond "idp" = updateCountOf mFirst "idp" + 1 ∧
    updateCountOf mFirst "idp" ≤ updateCountOf mSecond "idp" := by
  have h := updateCount_monotone "idp"
  exact ⟨h.1 mFirst ⟨"idp", .error (.doFailed "timeout"), 10, 900, 0, 3600, 200⟩ rfl,
         h.2.1 mFirst ⟨"idp", .error (.doFailed "timeout"), 10, 900, 0, 3600, 200⟩⟩

/-! ### C5 -/

/-- Registry after one fetch of `cfg0` answered `200` with body `{}` (valid
JSON, no `keys` field) at time 100. -/
def mEmptyBody : Manager :=
  (fetchAndUpdate cfg0 [] 200 "" (some (.obj [])) 100).1

/-- C5 counterexample: the claim says a valid-JSON body without a `keys`
array is recorded as a failure.  `json.Unmarshal` leaves the `Keys` slice at
its zero value without error on such a body, so the attempt is recorded as a
SUCCESS publishing an empty key set: empty `last_error`, `jwks` changed from
nil to an empty set. -/
theorem missingKeys_published_as_success :
    (findData mEmptyBody "idp").map IDPData.lastError = some "" ∧
    (findData mEmptyBody "idp").map IDPData.jwks = some (some ⟨[]⟩) ∧
    (findData mEmptyBody "idp").map IDPData.updateCount = some 1 ∧
    findData ([] : Manager) "idp" = none := by
  refine ⟨by decide, by decide, by decide, by decide⟩

/-- `GetMaxKeys` is always positive. -/
theorem IDPConfig.getMaxKeys_pos (c : IDPConfig) : 0 < c.getMaxKeys := by
  unfold IDPConfig.getMaxKeys
  split <;> omega

/-- `GetCacheDuration` is always positive. -/
theorem IDPConfig.getCacheDuration_pos (c : IDPConfig) : 0 < c.getCacheDuration := by
  unfold IDPConfig.getCacheDuration
  split <;> omega

/-- C5 (amended): a response body that is a valid JSON object whose `keys`
field is absent or `null` unmarshals without error into an empty key set, and
the attempt is recorded as a successful update publishing that empty set:
empty `last_error`, `jwks` set to the empty key set, `key_count = 0`. -/
theorem unmarshal_missing_keys_success (fields : List (String × Json))
    (h : Json.getField fields "keys" = none ∨ Json.getField fields "keys" = some .null)
    (cfg : IDPConfig) (m : Manager) (cc : String) (now : Int) :
    unmarshalJWKS (.obj fields) = .ok ⟨[]⟩ ∧
    ∃ d, findData (fetchAndUpdate cfg m 200 cc (some (.obj fields)) now).1 cfg.name = some d ∧
      d.lastError = "" ∧ d.jwks = some ⟨[]⟩ ∧ d.keyCount = 0 := by
  have hunm : unmarshalJWKS (.obj fields) = .ok ⟨[]⟩ := by
    rcases h with h | h <;> simp [unmarshalJWKS, h]
  refine ⟨hunm, ?_⟩
  have hmk : ¬ ((([] : List JWK).length : Int) > cfg.getMaxKeys) := by
    have := IDPConfig.getMaxKeys_pos cfg
    simp
    omega
  unfold fetchAndUpdate fetchDecode
  simp only [hunm]
  unfold updateWithIDPCache
  simp only [if_neg (by decide : ¬ (200 : Int) ≠ 200), Except.map, hmk, if_neg]
  exact ⟨_, findData_setData _ _ _, rfl, rfl, rfl⟩

/-- Witness for C5 (amended) at the body `{}`. -/
theorem unmarshal_missing_keys_success_witness :
    unmarshalJWKS (.obj []) = .ok ⟨[]⟩ ∧
    ∃ d, findData mEmptyBody "idp" = some d ∧
      d.lastError = "" ∧ d.jwks = some ⟨[]⟩ ∧ d.keyCount = 0 := by
  exact unmarshal_missing_keys_success [] (Or.inl rfl) cfg0 [] "" 100

/-! ### C10 -/

/-- C10: a header whose parsed `max-age` is zero or negative (the parser can
return a negative value, e.g. from `max-age=-5`) makes
`determineCacheDuration` return the configured duration, which is exactly the
absent-header behavior, and the arbiter's output is always positive — a
negative duration is never chosen. -/
theorem nonpositive_maxAge_uses_config (cfg : IDPConfig) (cc : String) (s : Int)
    (h : parseCacheControl cc ≤ 0) :
    determineCacheDuration cfg (parseCacheControl cc) = cfg.getCacheDuration ∧
    determineCacheDuration cfg (parseCacheControl cc)
      = determineCacheDuration cfg (parseCacheControl "") ∧
    0 < determineCacheDuration cfg s := by
  have hcd : 0 < cfg.getCacheDuration := IDPConfig.getCacheDuration_pos cfg
  have hp : parseCacheControl "" = 0 := rfl
  refine ⟨?_, ?_, ?_⟩ <;> simp only [determineCacheDuration, hp] <;> split_ifs <;> omega

/-- Witness for C10 at the header `max-age=-5` and `cfg0`. -/
theorem nonpositive_maxAge_uses_config_witness :
    parseCacheControl "max-age=-5" ≤ 0 ∧
    determineCacheDuration cfg0 (parseCacheControl "max-age=-5") = 900 ∧
    0 < determineCacheDuration cfg0 (-5) := by
  have h := nonpositive_maxAge_uses_config cfg0 "max-age=-5" (-5) (by decide)
  exact ⟨by decide, h.1.trans (by decide), h.2.2⟩

/-! ### C8 -/

/-- C8: `GET /jwks/{name}` yields 400 for an empty name segment, 404 for a
name with no registry slot, 404 for a slot whose JWKS has never loaded, and
200 with the stored JWKS body once loaded. -/
theorem handleGetIDPJWKS_status_codes (m : Manager) (name : String) :
    (name = "" → handleGetIDPJWKS m .get name = .badRequest) ∧
    (name ≠ "" → findData m name = none → handleGetIDPJWKS m .get name = .notFound) ∧
    (∀ d, name ≠ "" → findData m name = some d → d.jwks = none →
      handleGetIDPJWKS m .get name = .notFound) ∧
    (∀ d j, name ≠ "" → findData m name = some d → d.jwks = some j →
      (handleGetIDPJWKS m .get name).status = 200 ∧
      ∃ ma kc mks, handleGetIDPJWKS m .get name = .ok ma kc mks d.lastUpdated j.keys) := by
  refine ⟨?_, ?_, ?_, ?_⟩
  · intro h
    simp [handleGetIDPJWKS, h]
  · intro hn hfd
    simp [handleGetIDPJWKS, hn, managerGet, hfd]
  · intro d hn hfd hj
    simp [handleGetIDPJWKS, hn, managerGet, hfd, hj]
  · intro d j hn hfd hj
    refine ⟨?_, 0, 0, 0, ?_⟩ <;>
      simp [handleGetIDPJWKS, hn, managerGet, hfd, hj, IDPJwksResponse.status]

/-- The slot stored in `mErr` below. -/
def errEntry : IDPData :=
  { name := "e", jwks := none, lastUpdated := 50,
    lastError := "failed to fetch JWKS: boom", updateCount := 1, keyCount := 0,
    maxKeys := 10, cacheDuration := 900, idpSuggestedCache := 0,
    refreshInterval := 3600, cacheUntil := 0 }

/-- Registry with one slot whose only attempt failed (never loaded). -/
def mErr : Manager :=
  (updateWithIDPCache [] "e" (.error (.doFailed "boom")) 10 900 0 3600 50).1

/-- Witness for C8 over the concrete registries. -/
theorem handleGetIDPJWKS_status_codes_witness :
    handleGetIDPJWKS mFirst .get "" = .badRequest ∧
    handleGetIDPJWKS mFirst .get "nope" = .notFound ∧
    handleGetIDPJWKS mErr .get "e" = .notFound ∧
    (handleGetIDPJWKS mFirst .get "idp").status = 200 := by
  refine ⟨(handleGetIDPJWKS_status_codes mFirst "").1 rfl,
    (handleGetIDPJWKS_status_codes mFirst "nope").2.1 (by decide) (by decide),
    (handleGetIDPJWKS_status_codes mErr "e").2.2.1 errEntry (by decide) (by decide) (by decide),
    ((handleGetIDPJWKS_status_codes mFirst "idp").2.2.2 firstEntry ⟨[k1, k2]⟩
      (by decide) (by decide) (by decide)).1⟩

/-! ### C7 -/

/-- C7: a successful update that received `k` keys under ceiling `mk` stores
exactly the first `min k mk` upstream keys in upstream order, records
`key_count = len(stored keys) ≤ mk`, and when `k > mk` emits a truncation
warning log while the resulting registry state is indistinguishable from one
produced by an upstream that had returned only the first `mk` keys — nothing
about the truncation is recorded in state. -/
theorem updateWithIDPCache_truncates (m : Manager) (name : String) (keys : List JWK)
    (mk cd isc ri now : Int) (hmk : 0 < mk) :
    ∃ d, findData (updateWithIDPCache m name (.ok ⟨keys⟩) mk cd isc ri now).1 name = some d ∧
      d.jwks = some ⟨keys.take (min keys.length mk.toNat)⟩ ∧
      d.keyCount = min keys.length mk.toNat ∧
      (d.keyCount : Int) ≤ mk ∧
      ((keys.length : Int) > mk →
        LogEvent.warnTruncate name keys.length mk ∈
          (updateWithIDPCache m name (.ok ⟨keys⟩) mk cd isc ri now).2 ∧
        (updateWithIDPCache m name (.ok ⟨keys⟩) mk cd isc ri now).1 =
          (updateWithIDPCache m name (.ok ⟨keys.take mk.toNat⟩) mk cd isc ri now).1) := by
  by_cases ht : (keys.length : Int) > mk
  · have hlen : (keys.take mk.toNat).length = mk.toNat := by
      rw [List.length_take]
      omega
    have hmin : min keys.length mk.toNat = mk.toNat := by omega
    have ht2 : ¬ (((keys.take mk.toNat).length : Int) > mk) := by
      rw [hlen]
      omega
    simp only [updateWithIDPCache, if_pos ht, if_neg ht2]
    refine ⟨_, findData_setData _ _ _, ?_, ?_, ?_, fun _ => ⟨?_, by trivial⟩⟩
    · show some (⟨keys.take mk.toNat⟩ : JWKS) = some ⟨keys.take (min keys.length mk.toNat)⟩
      rw [hmin]
    · show (keys.take mk.toNat).length = min keys.length mk.toNat
      rw [hlen, hmin]
    · show (((keys.take mk.toNat).length : Nat) : Int) ≤ mk
      rw [hlen]
      omega
    · simp
  · have hmin : min keys.length mk.toNat = keys.length := by omega
    simp only [updateWithIDPCache, if_neg ht]
    refine ⟨_, findData_setData _ _ _, ?_, ?_, ?_, fun h => absurd h ht⟩
    · show some (⟨keys⟩ : JWKS) = some ⟨keys.take (min keys.length mk.toNat)⟩
      rw [hmin, List.take_length]
    · show keys.length = min keys.length mk.toNat
      omega
    · show ((keys.length : Nat) : Int) ≤ mk
      omega

/-- Witness for C7: ceiling 2, upstream returns 3 keys. -/
theorem updateWithIDPCache_truncates_witness :
    LogEvent.warnTruncate "t" 3 2 ∈
      (updateWithIDPCache [] "t" (.ok ⟨[k1, k2, k3]⟩) 2 900 0 3600 100).2 := by
  obtain ⟨d, _, _, _, _, himp⟩ :=
    updateWithIDPCache_truncates [] "t" [k1, k2, k3] 2 900 0 3600 100 (by decide)
  exact (himp (by decide)).1

/-! ### C3 -/

/-- Registry with a single loaded IDP whose chosen `cache_duration` is 1800. -/
def mHighCache : Manager :=
  (updateWithIDPCache [] "a" (.ok ⟨[k1]⟩) 10 1800 0 3600 100).1

/-- C3 counterexample: the claim says the merged `max-age` equals the minimum
`cache_duration` over contributing IDPs and so exceeds 900 whenever every
contributor's duration does.  The handler starts its fold at
`minCacheDuration := 900` and only ever lowers it: with one contributing IDP
whose stored `cache_duration` is 1800, the response's `max-age` is 900, not
1800. -/
theorem merged_maxAge_capped_at_900 :
    handleGetMergedJWKS mHighCache .get = .ok [k1] 900 1 1 ∧
    (findData mHighCache "a").map IDPData.cacheDuration = some 1800 ∧
    (900 : Int) ≠ 1800 := by
  refine ⟨by decide, by decide, by decide⟩

/-- The third component of `mergeLoop` (the running `minCacheDuration`) never
exceeds its seed, is a lower bound of every contributing entry's positive
`cache_duration`, and is attained: it equals the seed or the positive
`cache_duration` of some CONTRIBUTING entry (non-nil JWKS with at least one
key). -/
theorem mergeLoop_min (l : List IDPData) (ka : List JWK) (t : Nat) (mcd : Int) :
    (mergeLoop l ka t mcd).2.2 ≤ mcd ∧
    (∀ d ∈ l, ∀ j, d.jwks = some j → 0 < j.keys.length → 0 < d.cacheDuration →
      (mergeLoop l ka t mcd).2.2 ≤ d.cacheDuration) ∧
    ((mergeLoop l ka t mcd).2.2 = mcd ∨
      ∃ d ∈ l, ∃ j, d.jwks = some j ∧ 0 < j.keys.length ∧ 0 < d.cacheDuration ∧
        (mergeLoop l ka t mcd).2.2 = d.cacheDuration) := by
  induction l generalizing ka t mcd with
  | nil => simp [mergeLoop]
  | cons d rest ih =>
    cases hj : d.jwks with
    | none =>
      simp only [mergeLoop, hj]
      obtain ⟨h1, h2, h3⟩ := ih ka t mcd
      refine ⟨h1, ?_, ?_⟩
      · intro d' hd' j hj' hlen hcd
        rcases List.mem_cons.mp hd' with rfl | hd'
        · rw [hj] at hj'
          cases hj'
        · exact h2 d' hd' j hj' hlen hcd
      · rcases h3 with h | ⟨d', hd', j', hj', hlen', hcd', heq⟩
        · exact Or.inl h
        · exact Or.inr ⟨d', List.mem_cons_of_mem _ hd', j', hj', hlen', hcd', heq⟩
    | some j =>
      by_cases hlen : 0 < j.keys.length
      · simp only [mergeLoop, hj, if_pos hlen]
        obtain ⟨h1, h2, h3⟩ := ih (ka ++ j.keys) (t + d.keyCount)
          (if 0 < d.cacheDuration ∧ d.cacheDuration < mcd then d.cacheDuration else mcd)
        have hle : (if 0 < d.cacheDuration ∧ d.cacheDuration < mcd then d.cacheDuration
            else mcd) ≤ mcd := by
          split_ifs <;> omega
        refine ⟨le_trans h1 hle, ?_, ?_⟩
        · intro d' hd' j' hj' hlen' hcd'
          rcases List.mem_cons.mp hd' with rfl | hd'
          · refine le_trans h1 ?_
            split_ifs with hc <;> omega
          · exact h2 d' hd' j' hj' hlen' hcd'
        · rcases h3 with h | ⟨d', hd', j', hj', hlen', hcd', heq⟩
          · by_cases hc : 0 < d.cacheDuration ∧ d.cacheDuration < mcd
            · refine Or.inr ⟨d, List.mem_cons_self _ _, j, hj, hlen, hc.1, ?_⟩
              rw [h, if_pos hc]
            · refine Or.inl ?_
              rw [h, if_neg hc]
          · exact Or.inr ⟨d', List.mem_cons_of_mem _ hd', j', hj', hlen', hcd', heq⟩
      · simp only [mergeLoop, hj, if_neg hlen]
        obtain ⟨h1, h2, h3⟩ := ih ka t mcd
        refine ⟨h1, ?_, ?_⟩
        · intro d' hd' j' hj' hlen' hcd'
          rcases List.mem_cons.mp hd' with rfl | hd'
          · rw [hj] at hj'
            cases hj'
            exact absurd hlen' hlen
          · exact h2 d' hd' j' hj' hlen' hcd'
        · rcases h3 with h | ⟨d', hd', j', hj', hlen', hcd', heq⟩
          · exact Or.inl h
          · exact Or.inr ⟨d', List.mem_cons_of_mem _ hd', j', hj', hlen', hcd', heq⟩

/-- C3 (amended): the `max-age` of every 200 response of
`/.well-known/jwks.json` equals the minimum of 900 and the positive
`cache_duration`s of the IDPs whose keys appear in the response: it is at most
900, bounds every contributor's positive `cache_duration` from below, and is
attained either by the 900 fallback/cap or by the positive `cache_duration`
of some IDP whose keys appear in the response (non-nil JWKS with at least one
key), never by a keyless entry. -/
theorem merged_maxAge_is_min_with_900 (m : Manager) (keys : List JWK) (maxAge : Int)
    (tot cnt : Nat) (h : handleGetMergedJWKS m .get = .ok keys maxAge tot cnt) :
    maxAge ≤ 900 ∧
    (∀ d ∈ managerGetAll m, ∀ j, d.jwks = some j → 0 < j.keys.length →
      0 < d.cacheDuration → maxAge ≤ d.cacheDuration) ∧
    (maxAge = 900 ∨
      ∃ d ∈ managerGetAll m, ∃ j, d.jwks = some j ∧ 0 < j.keys.length ∧
        0 < d.cacheDuration ∧ maxAge = d.cacheDuration) := by
  have hne : ¬ (Method.get ≠ Method.get) := by simp
  simp only [handleGetMergedJWKS, if_neg hne, MergedResponse.ok.injEq] at h
  obtain ⟨-, hmax, -, -⟩ := h
  rw [← hmax]
  exact mergeLoop_min (managerGetAll m) [] 0 900

/-- The `GetAll` copy of the slot stored in `mHighCache`. -/
def highEntryView : IDPData :=
  { name := "a", jwks := some ⟨[k1]⟩, lastUpdated := 100, lastError := "",
    updateCount := 1, keyCount := 1, maxKeys := 10, cacheDuration := 1800,
    idpSuggestedCache := 0, refreshInterval := 0, cacheUntil := 1900 }

/-- Witness for C3 (amended) at `mHighCache`: the bound and the contributor
bound, instantiated. -/
theorem merged_maxAge_is_min_with_900_witness :
    (900 : Int) ≤ 900 ∧ (900 : Int) ≤ 1800 := by
  have h := merged_maxAge_is_min_with_900 mHighCache [k1] 900 1 1 (by decide)
  exact ⟨h.1, h.2.1 highEntryView (by decide) ⟨[k1]⟩ (by decide) (by decide) (by decide)⟩

/-! ### C6 -/

/-- C6 counterexample: the claim says only directives of the exact form
`max-age=<non-negative integer>` yield a value, so `max-age=60abc` (not
well-formed) must yield 0 and no negative value is ever returned.  `Sscanf`
with `%d` ignores trailing characters and accepts a sign: the parser returns
60 for `max-age=60abc` and -5 for `max-age=-5` (while a digitless value such
as `max-age=abc` does yield 0). -/
theorem parseCacheControl_not_wellformed_only :
    parseCacheControl "max-age=60abc" = 60 ∧
    parseCacheControl "max-age=-5" = -5 ∧
    parseCacheControl "max-age=abc" = 0 := by
  refine ⟨by decide, by decide, by decide⟩

/-- `dropWhile` is the identity when the head does not satisfy the predicate. -/
theorem dropWhile_head_false (p : Char → Bool) (l : List Char)
    (h : ∀ c, l.head? = some c → p c = false) : l.dropWhile p = l := by
  cases l with
  | nil => rfl
  | cons a tl =>
    rw [List.dropWhile_cons, h a rfl]
    simp

/-- `takeWhile` is the identity when every element satisfies the predicate. -/
theorem takeWhile_all_true (p : Char → Bool) (l : List Char)
    (h : ∀ c ∈ l, p c = true) : l.takeWhile p = l := by
  induction l with
  | nil => rfl
  | cons a tl ih =>
    rw [List.takeWhile_cons, h a (List.mem_cons_self _ _)]
    simp [ih (fun c hc => h c (List.mem_cons_of_mem _ hc))]

/-- A digit is neither a space nor a tab. -/
theorem isDigit_not_spaceTab {c : Char} (h : c.isDigit = true) : isSpaceTab c = false := by
  unfold isSpaceTab
  by_cases h1 : c = ' '
  · subst h1
    exact absurd h (by decide)
  · by_cases h2 : c = '\t'
    · subst h2
      exact absurd h (by decide)
    · simp [h1, h2]

/-- A digit is not a comma, a minus sign, or a plus sign. -/
theorem isDigit_ne {c : Char} (h : c.isDigit = true) : c ≠ ',' ∧ c ≠ '-' ∧ c ≠ '+' := by
  refine ⟨?_, ?_, ?_⟩ <;> intro he <;> subst he <;> exact absurd h (by decide)

/-- A leading space is discarded by `trimSpace`. -/
theorem trimSpace_space_cons (l : List Char) : trimSpace (' ' :: l) = trimSpace l := by
  have hdw : List.dropWhile isSpaceTab (' ' :: l) = List.dropWhile isSpaceTab l := by
    rw [List.dropWhile_cons]
    simp [isSpaceTab]
  unfold trimSpace
  rw [hdw]

/-- `trimSpace` is the identity on a list whose first and last characters are
not spaces or tabs. -/
theorem trimSpace_eq_self (l : List Char)
    (hhead : ∀ c, l.head? = some c → isSpaceTab c = false)
    (hrev : ∀ c, l.reverse.head? = some c → isSpaceTab c = false) :
    trimSpace l = l := by
  unfold trimSpace
  rw [dropWhile_head_false _ l hhead, dropWhile_head_false _ l.reverse hrev,
    List.reverse_reverse]

/-- A comma-free block of characters is accumulated verbatim by the splitting
loop. -/
theorem splitAux_nocomma (xs : List Char) (h : ∀ c ∈ xs, c ≠ ',') (ys cur : List Char) :
    splitCacheControlAux (xs ++ ys) cur = splitCacheControlAux ys (cur ++ xs) := by
  induction xs generalizing cur with
  | nil => simp
  | cons c tl ih =>
    have hc : c ≠ ',' := h c (List.mem_cons_self _ _)
    rw [List.cons_append]
    show splitCacheControlAux (c :: (tl ++ ys)) cur = _
    simp only [splitCacheControlAux, if_neg hc]
    rw [ih (fun c' hc' => h c' (List.mem_cons_of_mem _ hc')) (cur ++ [c]),
      List.append_assoc, List.singleton_append]

/-- The splitting loop at a comma: collect the trimmed accumulator (unless it
trims to empty) and restart. -/
theorem splitAux_comma (ys cur : List Char) :
    splitCacheControlAux (',' :: ys) cur =
      (if trimSpace cur = [] then splitCacheControlAux ys []
       else trimSpace cur :: splitCacheControlAux ys []) := by
  simp [splitCacheControlAux]

/-- The directive loop skips a directive that fails the `max-age=` shape
check. -/
theorem parseAux_skip (d : List Char) (rest : List (List Char))
    (h : ¬ (d.length > 8 ∧ d.take 8 = maxAgeLit)) :
    parseCacheControlAux (d :: rest) = parseCacheControlAux rest := by
  simp only [parseCacheControlAux, if_neg h]

/-- The directive loop returns on a directive that passes the shape check and
scans. -/
theorem parseAux_hit (d : List Char) (rest : List (List Char)) (v : Int)
    (hcond : d.length > 8 ∧ d.take 8 = maxAgeLit)
    (hscan : sscanfInt (d.drop 8) = some v) :
    parseCacheControlAux (d :: rest) = v := by
  simp only [parseCacheControlAux, if_pos hcond, hscan]

/-- C6 (amended): the parser splits on commas and trims spaces/tabs; the
first directive longer than 8 characters that starts with `max-age=` and
whose remainder scans with `%d` (an optionally-signed digit run, trailing
characters ignored) yields the scanned value — in particular every header
`public, max-age=<digits>, must-revalidate` yields the digits' value — while
an absent header or a header with no scannable `max-age` directive yields 0. -/
theorem parseCacheControl_scan (ds : List Char) (hne : ds ≠ [])
    (hdig : ∀ c ∈ ds, c.isDigit = true) :
    parseCacheControl ("public, max-age=" ++ String.mk ds ++ ", must-revalidate")
      = (digitsToNat ds : Int) ∧
    parseCacheControl "" = 0 ∧
    parseCacheControl "public, max-age=abc" = 0 := by
  refine ⟨?_, rfl, by decide⟩
  obtain ⟨c0, tl0, hds⟩ : ∃ c tl, ds = c :: tl := by
    cases ds with
    | nil => exact absurd rfl hne
    | cons a b => exact ⟨a, b, rfl⟩
  have hc0 : c0.isDigit = true := hdig c0 (by rw [hds]; exact List.mem_cons_self _ _)
  obtain ⟨cr, tlr, hrev⟩ : ∃ c tl, ds.reverse = c :: tl := by
    cases hr : ds.reverse with
    | nil => exact absurd (List.reverse_eq_nil_iff.mp hr) hne
    | cons a b => exact ⟨a, b, rfl⟩
  have hcr : cr.isDigit = true := hdig cr (List.mem_reverse.mp (by
    rw [hrev]
    exact List.mem_cons_self _ _))
  have hS : ("public, max-age=" ++ String.mk ds ++ ", must-revalidate").toList
      = "public".toList ++ (',' :: ((' ' :: "max-age=".toList) ++
          (ds ++ (',' :: (' ' :: "must-revalidate".toList))))) := rfl
  have hne' : ("public, max-age=" ++ String.mk ds ++ ", must-revalidate") ≠ "" := by
    intro h
    have h2 := congrArg String.toList h
    rw [hS] at h2
    simp at h2
  have htrim : trimSpace ((' ' :: "max-age=".toList) ++ ds) = "max-age=".toList ++ ds := by
    rw [List.cons_append, trimSpace_space_cons]
    apply trimSpace_eq_self
    · intro c hc
      rw [show ("max-age=".toList ++ ds).head? = some 'm' from rfl] at hc
      have h3 := Option.some.inj hc
      subst h3
      decide
    · intro c hc
      rw [List.reverse_append, hrev, List.cons_append, List.head?_cons] at hc
      have h3 := Option.some.inj hc
      subst h3
      exact isDigit_not_spaceTab hcr
  have hlenpos : 0 < ds.length := List.length_pos.mpr hne
  have hcond : ("max-age=".toList ++ ds).length > 8 ∧
      ("max-age=".toList ++ ds).take 8 = maxAgeLit := by
    constructor
    · rw [List.length_append]
      have h8 : ("max-age=".toList).length = 8 := rfl
      omega
    · rw [show (8 : Nat) = ("max-age=".toList).length from rfl, List.take_left]
      rfl
  have hdrop : ("max-age=".toList ++ ds).drop 8 = ds := by
    rw [show (8 : Nat) = ("max-age=".toList).length from rfl, List.drop_left]
  have hnospace : ds.dropWhile isSpaceTab = ds := by
    apply dropWhile_head_false
    intro c hc
    rw [hds, List.head?_cons] at hc
    have h3 := Option.some.inj hc
    subst h3
    exact isDigit_not_spaceTab hc0
  have htake1 : ds.take 1 = [c0] := by
    rw [hds]
    rfl
  have hscan : sscanfInt (("max-age=".toList ++ ds).drop 8) = some (digitsToNat ds : Int) := by
    rw [hdrop]
    unfold sscanfInt
    rw [hnospace]
    show (if ds.take 1 = ['-'] then (scanDigitRun (ds.drop 1)).map (fun v => -v)
      else if ds.take 1 = ['+'] then scanDigitRun (ds.drop 1)
      else scanDigitRun ds) = some (digitsToNat ds : Int)
    rw [htake1]
    rw [if_neg (by simp [(isDigit_ne hc0).2.1]), if_neg (by simp [(isDigit_ne hc0).2.2])]
    unfold scanDigitRun
    show (if ds.takeWhile Char.isDigit = [] then none
      else some ((digitsToNat (ds.takeWhile Char.isDigit) : Nat) : Int))
        = some (digitsToNat ds : Int)
    rw [takeWhile_all_true _ _ hdig, if_neg hne]
  unfold parseCacheControl splitCacheControl
  rw [if_neg hne', hS]
  rw [splitAux_nocomma "public".toList (by decide)]
  simp only [List.nil_append]
  rw [splitAux_comma, if_neg (show ¬ (trimSpace "public".toList = []) from by decide),
    show trimSpace "public".toList = "public".toList from by decide]
  rw [splitAux_nocomma (' ' :: "max-age=".toList) (by decide)]
  simp only [List.nil_append]
  rw [splitAux_nocomma ds (fun c hc => (isDigit_ne (hdig c hc)).1)]
  rw [splitAux_comma, htrim]
  rw [if_neg (show ¬ ("max-age=".toList ++ ds = []) from by
    rw [show "max-age=".toList ++ ds = 'm' :: ("ax-age=".toList ++ ds) from rfl]
    simp)]
  rw [show splitCacheControlAux (' ' :: "must-revalidate".toList) []
      = ["must-revalidate".toList] from by decide]
  rw [parseAux_skip _ _ (by decide), parseAux_hit _ _ _ hcond hscan]

/-- Witness for C6 (amended): digits `300` in context. -/
theorem parseCacheControl_scan_witness :
    parseCacheControl ("public, max-age=" ++ String.mk ['3', '0', '0'] ++ ", must-revalidate")
      = 300 := by
  have h := (parseCacheControl_scan ['3', '0', '0'] (by decide) (by decide)).1
  exact h.trans (by decide)

end IdpCaller
